import Mathlib

/-!
# osqueryplugin.h : channel state flags, identity record and its IPFIX encoding

A shallow embedding of `src/osqueryplugin.h`.

* `OsqueryStateHandler` : the `uint8_t` flag word `OSQUERY_STATE` is a `Nat`, every
  assignment to it is taken modulo `2 ^ 8`; the `bool` conversions of the queries are
  `!= 0`.
* `RecordExtOSQUERY` : a `std::string` is a `String` read one `Char` per C++ `char`
  (so `String.length` is `std::string::length()`), a `uint16_t` is a `Nat`.
* `RecordExtOSQUERY.fillIPFIX` : the output area `uint8_t *buffer` is a map from
  offsets to byte values, so that every store of the function can be observed, also
  one that lands at or after `size`.  The result pairs the returned `int` with the
  buffer as the function leaves it.
* `retryPolicy`, `logicalQuery`, `readInfoAboutOS` and `parseString` : the header only
  declares `readInfoAboutOS`, `readInfoAboutProgram`, `executeQuery` and `parseString`; the
  retry policy and the scanner are modelled from the specification, over an arbitrary
  behaviour of the query tool and over arbitrary observed buffer contents.
-/

set_option autoImplicit false
set_option maxRecDepth 100000

/-! ## Constants (lines 65 to 79) -/

/-- The text of `#define DEFAULT_FILL_TEXT "UNDEFINED"`. -/
def DEFAULT_FILL_TEXT : String := "UNDEFINED"

/-- Flag `#define FATAL_ERROR 0b00000001`. -/
def FATAL_ERROR : Nat := 0b00000001

/-- Flag `#define OPEN_FD_ERROR 0b00000010`. -/
def OPEN_FD_ERROR : Nat := 0b00000010

/-- Flag `#define READ_ERROR 0b00000100`. -/
def READ_ERROR : Nat := 0b00000100

/-- Flag `#define READ_SUCCESS 0b00001000`. -/
def READ_SUCCESS : Nat := 0b00001000

/-- The expression of `#define BUFFER_SIZE 1024 * 20 + 1`. -/
def BUFFER_SIZE : Nat := 1024 * 20 + 1

/-- The value of `#define READ_SIZE 1024`. -/
def READ_SIZE : Nat := 1024

/-- The value of `#define POLL_TIMEOUT 200` (milliseconds). -/
def POLL_TIMEOUT : Nat := 200

/-- The value of `#define READ_FD 0`. -/
def READ_FD : Nat := 0

/-- The value of `#define WRITE_FD 1`. -/
def WRITE_FD : Nat := 1

/-- The value of `#define MAX_NUMBER_OF_ATTEMPTS 2`. -/
def MAX_NUMBER_OF_ATTEMPTS : Nat := 2

/-! ## RecordExtOSQUERY (lines 85 to 242) -/

/-- The eleven data members of `struct RecordExtOSQUERY`, in declaration order. -/
structure RecordExtOSQUERY where
  program_name : String
  username : String
  os_name : String
  os_major : Nat
  os_minor : Nat
  os_build : String
  os_platform : String
  os_platform_like : String
  os_arch : String
  kernel_version : String
  system_hostname : String
deriving DecidableEq, Repr

/-- The default constructor `RecordExtOSQUERY()` (lines 99 to 112). -/
def RecordExtOSQUERY.ctor : RecordExtOSQUERY :=
  { program_name := DEFAULT_FILL_TEXT
    username := DEFAULT_FILL_TEXT
    os_name := DEFAULT_FILL_TEXT
    os_major := 0
    os_minor := 0
    os_build := DEFAULT_FILL_TEXT
    os_platform := DEFAULT_FILL_TEXT
    os_platform_like := DEFAULT_FILL_TEXT
    os_arch := DEFAULT_FILL_TEXT
    kernel_version := DEFAULT_FILL_TEXT
    system_hostname := DEFAULT_FILL_TEXT }

/-- The bytes behind `std::string::c_str()`, one per character. -/
def c_str (s : String) : List Nat := s.toList.map Char.toNat

/-- The store `buffer[pos] = v` into a `uint8_t` cell: the `int` value is cut to 8 bits. -/
def storeU8 (buffer : Nat → Nat) (pos : Nat) (v : Nat) : Nat → Nat :=
  fun j => if j = pos then v % 256 else buffer j

/-- The call `memcpy(buffer + dest, src, n)`: cells `dest .. dest + n - 1` receive the first
`n` bytes of `src` (a byte read after the end of the text is the terminating zero). -/
def memcpy (buffer : Nat → Nat) (dest : Nat) (src : List Nat) (n : Nat) : Nat → Nat :=
  fun j => if dest ≤ j ∧ j < dest + n then src.getD (j - dest) 0 else buffer j

/-- The function `ntohs` on a `uint16_t`: a byte swap on a little-endian host, the identity on a
big-endian host. -/
def ntohs (hostLittleEndian : Bool) (x : Nat) : Nat :=
  if hostLittleEndian then (x % 256) * 256 + x / 256 % 256 else x % 65536

/-- The store `*(uint16_t *) (buffer + pos) = v`: two cells in host byte order. -/
def storeU16 (hostLittleEndian : Bool) (buffer : Nat → Nat) (pos : Nat) (v : Nat) : Nat → Nat :=
  fun j =>
    if j = pos then (if hostLittleEndian then v % 256 else v / 256 % 256)
    else if j = pos + 1 then (if hostLittleEndian then v / 256 % 256 else v % 256)
    else buffer j

/-- The method `fillIPFIX(uint8_t *buffer, int size)` (lines 147 to 241), statement by statement.
The locals `length` and `total_length` never go below zero and are kept as `Nat`; they enter
the comparison with `size` as integers, and `int` arithmetic is taken without wrap-around (the
texts are cut from a response buffer of `BUFFER_SIZE` bytes, their lengths sum far below
`2 ^ 31`). The first component is the returned `int`, the second the buffer at the moment of
return. -/
def RecordExtOSQUERY.fillIPFIX (r : RecordExtOSQUERY) (hostLittleEndian : Bool)
    (buffer : Nat → Nat) (size : Int) : Int × (Nat → Nat) :=
  let total_length : Nat := 0
  -- OSQUERY_PROGRAM_NAME
  let length : Nat := r.program_name.length
  if (total_length : Int) + (length : Int) + 1 > size then (-1, buffer) else
  let buffer := storeU8 buffer total_length length
  let buffer := memcpy buffer (total_length + 1) (c_str r.program_name) length
  let total_length := total_length + (length + 1)
  -- OSQUERY_USERNAME
  let length : Nat := r.username.length
  if (total_length : Int) + (length : Int) + 1 > size then (-1, buffer) else
  let buffer := storeU8 buffer total_length length
  let buffer := memcpy buffer (total_length + 1) (c_str r.username) length
  let total_length := total_length + (length + 1)
  -- OSQUERY_OS_NAME
  let length : Nat := r.os_name.length
  if (total_length : Int) + (length : Int) + 1 > size then (-1, buffer) else
  let buffer := storeU8 buffer total_length length
  let buffer := memcpy buffer (total_length + 1) (c_str r.os_name) length
  let total_length := total_length + (length + 1)
  -- OSQUERY_OS_MAJOR
  let buffer := storeU16 hostLittleEndian buffer total_length (ntohs hostLittleEndian r.os_major)
  let total_length := total_length + 2
  -- OSQUERY_OS_MINOR
  let buffer := storeU16 hostLittleEndian buffer total_length (ntohs hostLittleEndian r.os_minor)
  let total_length := total_length + 2
  -- OSQUERY_OS_BUILD
  let length : Nat := r.os_build.length
  if (total_length : Int) + (length : Int) + 1 > size then (-1, buffer) else
  let buffer := storeU8 buffer total_length length
  let buffer := memcpy buffer (total_length + 1) (c_str r.os_build) length
  let total_length := total_length + (length + 1)
  -- OSQUERY_OS_PLATFORM
  let length : Nat := r.os_platform.length
  if (total_length : Int) + (length : Int) + 1 > size then (-1, buffer) else
  let buffer := storeU8 buffer total_length length
  let buffer := memcpy buffer (total_length + 1) (c_str r.os_platform) length
  let total_length := total_length + (length + 1)
  -- OSQUERY_OS_PLATFORM_LIKE
  let length : Nat := r.os_platform_like.length
  if (total_length : Int) + (length : Int) + 1 > size then (-1, buffer) else
  let buffer := storeU8 buffer total_length length
  let buffer := memcpy buffer (total_length + 1) (c_str r.os_platform_like) length
  let total_length := total_length + (length + 1)
  -- OSQUERY_OS_ARCH
  let length : Nat := r.os_arch.length
  if (total_length : Int) + (length : Int) + 1 > size then (-1, buffer) else
  let buffer := storeU8 buffer total_length length
  let buffer := memcpy buffer (total_length + 1) (c_str r.os_arch) length
  let total_length := total_length + (length + 1)
  -- OSQUERY_KERNEL_VERSION
  let length : Nat := r.kernel_version.length
  if (total_length : Int) + (length : Int) + 1 > size then (-1, buffer) else
  let buffer := storeU8 buffer total_length length
  let buffer := memcpy buffer (total_length + 1) (c_str r.kernel_version) length
  let total_length := total_length + (length + 1)
  -- OSQUERY_SYSTEM_HOSTNAME
  let length : Nat := r.system_hostname.length
  if (total_length : Int) + (length : Int) + 1 > size then (-1, buffer) else
  let buffer := storeU8 buffer total_length length
  let buffer := memcpy buffer (total_length + 1) (c_str r.system_hostname) length
  let total_length := total_length + (length + 1)
  ((total_length : Int), buffer)

/-! ## OsqueryStateHandler (lines 248 to 281) -/

/-- The two private members of `struct OsqueryStateHandler`; `OSQUERY_STATE` is a `uint8_t`. -/
structure OsqueryStateHandler where
  OSQUERY_STATE : Nat
  isSocketEventsAuditEnabled : Bool
deriving DecidableEq, Repr

namespace OsqueryStateHandler

/-- The constructor: `OSQUERY_STATE(0), isSocketEventsAuditEnabled(false)`. -/
def ctor : OsqueryStateHandler :=
  { OSQUERY_STATE := 0, isSocketEventsAuditEnabled := false }

/-- Query `isErrorState()`: `OSQUERY_STATE & (FATAL_ERROR | OPEN_FD_ERROR | READ_ERROR)`. -/
def isErrorState (h : OsqueryStateHandler) : Bool :=
  (h.OSQUERY_STATE &&& (FATAL_ERROR ||| OPEN_FD_ERROR ||| READ_ERROR)) != 0

/-- Mutator `setFatalError()`: `OSQUERY_STATE |= FATAL_ERROR`. -/
def setFatalError (h : OsqueryStateHandler) : OsqueryStateHandler :=
  { h with OSQUERY_STATE := (h.OSQUERY_STATE ||| FATAL_ERROR) % 256 }

/-- Query `isFatalError()`: `OSQUERY_STATE & FATAL_ERROR`. -/
def isFatalError (h : OsqueryStateHandler) : Bool :=
  (h.OSQUERY_STATE &&& FATAL_ERROR) != 0

/-- Mutator `setOpenFDError()`: `OSQUERY_STATE |= OPEN_FD_ERROR`. -/
def setOpenFDError (h : OsqueryStateHandler) : OsqueryStateHandler :=
  { h with OSQUERY_STATE := (h.OSQUERY_STATE ||| OPEN_FD_ERROR) % 256 }

/-- Query `isOpenFDError()`: `OSQUERY_STATE & OPEN_FD_ERROR`. -/
def isOpenFDError (h : OsqueryStateHandler) : Bool :=
  (h.OSQUERY_STATE &&& OPEN_FD_ERROR) != 0

/-- Mutator `setReadError()`: `OSQUERY_STATE |= READ_ERROR`. -/
def setReadError (h : OsqueryStateHandler) : OsqueryStateHandler :=
  { h with OSQUERY_STATE := (h.OSQUERY_STATE ||| READ_ERROR) % 256 }

/-- Query `isReadError()`: `OSQUERY_STATE & READ_ERROR`. -/
def isReadError (h : OsqueryStateHandler) : Bool :=
  (h.OSQUERY_STATE &&& READ_ERROR) != 0

/-- Mutator `setReadSuccess()`: `OSQUERY_STATE |= READ_SUCCESS`. -/
def setReadSuccess (h : OsqueryStateHandler) : OsqueryStateHandler :=
  { h with OSQUERY_STATE := (h.OSQUERY_STATE ||| READ_SUCCESS) % 256 }

/-- Query `isReadSuccess()`: `OSQUERY_STATE & READ_SUCCESS`. -/
def isReadSuccess (h : OsqueryStateHandler) : Bool :=
  (h.OSQUERY_STATE &&& READ_SUCCESS) != 0

/-- Mutator `setAuditEnabled(bool enabled)`. -/
def setAuditEnabled (h : OsqueryStateHandler) (enabled : Bool) : OsqueryStateHandler :=
  { h with isSocketEventsAuditEnabled := enabled }

/-- Query `isAuditEnabled()`. -/
def isAuditEnabled (h : OsqueryStateHandler) : Bool :=
  h.isSocketEventsAuditEnabled

/-- Mutator `refresh()`: `OSQUERY_STATE = OSQUERY_STATE & (FATAL_ERROR | OPEN_FD_ERROR)`. -/
def refresh (h : OsqueryStateHandler) : OsqueryStateHandler :=
  { h with OSQUERY_STATE := (h.OSQUERY_STATE &&& (FATAL_ERROR ||| OPEN_FD_ERROR)) % 256 }

/-- Mutator `reset()`: `OSQUERY_STATE = 0; isSocketEventsAuditEnabled = false`. -/
def reset (_h : OsqueryStateHandler) : OsqueryStateHandler :=
  { OSQUERY_STATE := 0, isSocketEventsAuditEnabled := false }

end OsqueryStateHandler

/-- One call of a mutating member function of `OsqueryStateHandler`. -/
inductive StateCall where
  | setFatalError
  | setOpenFDError
  | setReadError
  | setReadSuccess
  | setAuditEnabled (enabled : Bool)
  | refresh
  | reset
deriving DecidableEq, Repr

/-- The effect of one call on the handler. -/
def StateCall.run : StateCall → OsqueryStateHandler → OsqueryStateHandler
  | .setFatalError, h => h.setFatalError
  | .setOpenFDError, h => h.setOpenFDError
  | .setReadError, h => h.setReadError
  | .setReadSuccess, h => h.setReadSuccess
  | .setAuditEnabled enabled, h => h.setAuditEnabled enabled
  | .refresh, h => h.refresh
  | .reset, h => h.reset

/-- The effect of a finite sequence of calls, first call first. -/
def runCalls : List StateCall → OsqueryStateHandler → OsqueryStateHandler
  | [], h => h
  | c :: cs, h => runCalls cs (c.run h)

/-! ## Reading the encoding back -/

/-- The encoded length `L`: the nine text lengths, nine length bytes and 4 bytes of numbers. -/
def RecordExtOSQUERY.encodedLength (r : RecordExtOSQUERY) : Nat :=
  r.program_name.length + r.username.length + r.os_name.length + r.os_build.length +
    r.os_platform.length + r.os_platform_like.length + r.os_arch.length +
    r.kernel_version.length + r.system_hostname.length + 9 + 4

/-- The first `n` cells of a buffer, as a list. -/
def readBytes (buffer : Nat → Nat) (n : Nat) : List Nat := (List.range n).map buffer

/-- A buffer with the list `l` laid over the cells `pos .. pos + l.length - 1`. -/
def overlay (buffer : Nat → Nat) (pos : Nat) (l : List Nat) : Nat → Nat :=
  fun j => if pos ≤ j ∧ j < pos + l.length then l.getD (j - pos) 0 else buffer j

/-- Laying a sequence of chunks one after the other, starting at `pos`. -/
def overlayAll : List (List Nat) → Nat → (Nat → Nat) → (Nat → Nat)
  | [], _, buffer => buffer
  | c :: cs, pos, buffer => overlayAll cs (pos + c.length) (overlay buffer pos c)

/-- What one string block of `fillIPFIX` stores: the length cut to 8 bits, then the text. -/
def writtenString (s : String) : List Nat := (s.length % 256) :: c_str s

/-- What one numeric block of `fillIPFIX` stores, on either kind of host. -/
def writtenU16 (v : Nat) : List Nat := [v / 256 % 256, v % 256]

/-- The eleven chunks `fillIPFIX` stores when no size check fails, in program order. -/
def RecordExtOSQUERY.writtenChunks (r : RecordExtOSQUERY) : List (List Nat) :=
  [writtenString r.program_name, writtenString r.username, writtenString r.os_name,
   writtenU16 r.os_major, writtenU16 r.os_minor, writtenString r.os_build,
   writtenString r.os_platform, writtenString r.os_platform_like, writtenString r.os_arch,
   writtenString r.kernel_version, writtenString r.system_hostname]

/-- The wire format of a string field in the words of the specification: one byte holding the
length, followed by the raw bytes. -/
def wireString (s : String) : List Nat := s.length :: c_str s

/-- The wire format of a numeric field in the words of the specification: the 16-bit value as
two bytes, high byte first. -/
def wireU16 (v : Nat) : List Nat := [v % 65536 / 256, v % 65536 % 256]

/-- The wire format of a record in the words of the specification: the eleven fields in the
fixed order of the identity record. -/
def RecordExtOSQUERY.wireFormat (r : RecordExtOSQUERY) : List Nat :=
  wireString r.program_name ++ wireString r.username ++ wireString r.os_name ++
    wireU16 r.os_major ++ wireU16 r.os_minor ++ wireString r.os_build ++
    wireString r.os_platform ++ wireString r.os_platform_like ++ wireString r.os_arch ++
    wireString r.kernel_version ++ wireString r.system_hostname

/-- A record the plugin can hold: the defaults, with a program name of 256 characters. -/
def longNameRecord : RecordExtOSQUERY :=
  { RecordExtOSQUERY.ctor with program_name := String.mk (List.replicate 256 (Char.ofNat 97)) }

/-- A record with a program name of 256 characters: character 200, 200 times character 97,
character 186 and 54 times character 97; user name and OS name are 65 times character 65. -/
def collidingLongRecord : RecordExtOSQUERY :=
  { program_name := String.mk (Char.ofNat 200 :: List.replicate 200 (Char.ofNat 97) ++
      Char.ofNat 186 :: List.replicate 54 (Char.ofNat 97))
    username := String.mk (List.replicate 65 (Char.ofNat 65))
    os_name := String.mk (List.replicate 65 (Char.ofNat 65))
    os_major := 0
    os_minor := 0
    os_build := ""
    os_platform := ""
    os_platform_like := ""
    os_arch := ""
    kernel_version := ""
    system_hostname := "" }

/-- A record whose strings are all at most 255 long: empty program name, a user name of 200
times character 97, an OS name of 54 times character 97 followed by 132 times character 65. -/
def collidingShortRecord : RecordExtOSQUERY :=
  { program_name := ""
    username := String.mk (List.replicate 200 (Char.ofNat 97))
    os_name := String.mk (List.replicate 54 (Char.ofNat 97) ++ List.replicate 132 (Char.ofNat 65))
    os_major := 0
    os_minor := 0
    os_build := ""
    os_platform := ""
    os_platform_like := ""
    os_arch := ""
    kernel_version := ""
    system_hostname := "" }

/-- The copying constructor `RecordExtOSQUERY(const RecordExtOSQUERY *record)` (lines 114 to
127): each of the eleven members is assigned from `record`. -/
def RecordExtOSQUERY.copy (record : RecordExtOSQUERY) : RecordExtOSQUERY :=
  { program_name := record.program_name
    username := record.username
    os_name := record.os_name
    os_major := record.os_major
    os_minor := record.os_minor
    os_build := record.os_build
    os_platform := record.os_platform
    os_platform_like := record.os_platform_like
    os_arch := record.os_arch
    kernel_version := record.kernel_version
    system_hostname := record.system_hostname }

/-- The range of the two `uint16_t` members: a record of the C++ type holds values below
`2 ^ 16` in `os_major` and `os_minor`. -/
def RecordExtOSQUERY.numbersFit (r : RecordExtOSQUERY) : Prop :=
  r.os_major < 65536 ∧ r.os_minor < 65536

/-- The nine string members are each at most 255 characters long. -/
def RecordExtOSQUERY.stringsFit (r : RecordExtOSQUERY) : Prop :=
  r.program_name.length ≤ 255 ∧ r.username.length ≤ 255 ∧ r.os_name.length ≤ 255 ∧
  r.os_build.length ≤ 255 ∧ r.os_platform.length ≤ 255 ∧ r.os_platform_like.length ≤ 255 ∧
  r.os_arch.length ≤ 255 ∧ r.kernel_version.length ≤ 255 ∧ r.system_hostname.length ≤ 255

instance (r : RecordExtOSQUERY) : Decidable r.numbersFit := by
  unfold RecordExtOSQUERY.numbersFit
  infer_instance

instance (r : RecordExtOSQUERY) : Decidable r.stringsFit := by
  unfold RecordExtOSQUERY.stringsFit
  infer_instance

/-! ## The retry policy of the request manager

The bodies of `readInfoAboutOS`, `readInfoAboutProgram` and `executeQuery` are not part of
`osqueryplugin.h`, which only declares them. -/

/-- The outcome of one scan: the returned `int`, the text handed back through `str`, and the
buffer positions the scan has read, in order. -/
structure ScanResult where
  result : Int
  str : List Nat
  reads : List Nat
deriving DecidableEq, Repr

/-- Modelled from the spec: the second half of `parseString`, whose body is missing. After the
opening quote the bytes are copied up to the closing quote (there are no escape sequences); the
scan ends behind the closing quote, and the truncated marker -1 is returned when the observed
data ends first. The first list is the data not yet read, `pos` the position of its head. -/
def copyToClosingQuote (quote : Nat) : List Nat → Nat → List Nat → List Nat → ScanResult
  | [], _, str, reads => ⟨-1, str, reads⟩
  | b :: rest, pos, str, reads =>
    if b = quote then ⟨(pos : Int) + 1, str, reads ++ [pos]⟩
    else copyToClosingQuote quote rest (pos + 1) (str ++ [b]) (reads ++ [pos])

/-- Modelled from the spec: the first half of `parseString`, whose body is missing. The scan
moves forward to the next opening quote; a record separator met first gives the row-boundary
marker 0, the end of the observed data gives the truncated marker -1. -/
def scanToOpeningQuote (quote sep : Nat) : List Nat → Nat → List Nat → ScanResult
  | [], _, reads => ⟨-1, [], reads⟩
  | b :: rest, pos, reads =>
    if b = quote then copyToClosingQuote quote rest (pos + 1) [] (reads ++ [pos])
    else if b = sep then ⟨0, [], reads ++ [pos]⟩
    else scanToOpeningQuote quote sep rest (pos + 1) (reads ++ [pos])

/-- Modelled from the spec: `parseString(from, str)`, whose body is missing, over the observed
data of the response buffer, from the start position `fromPos`. The quote character and the
record separator are parameters. -/
def parseString (quote sep : Nat) (data : List Nat) (fromPos : Nat) : ScanResult :=
  scanToOpeningQuote quote sep (data.drop fromPos) fromPos []

/-- The bytes of the response row of scenario A of the specification, an opening brace, the key
pid in quotes, a colon, the value 4821 in quotes and a closing brace; the quote is byte 34 and
the closing brace, which ends a row, is byte 125. -/
def pidRow : List Nat := [123, 34, 112, 105, 100, 34, 58, 34, 52, 56, 50, 49, 34, 125]

/-! ## Bit-level lemmas for the flag word -/

theorem and_two_pow_ne_zero (x i : Nat) : ((x &&& 2 ^ i) != 0) = x.testBit i := by
  rw [Nat.and_two_pow]
  cases h : x.testBit i <;> simp

theorem and_one_ne_zero (x : Nat) : ((x &&& 1) != 0) = x.testBit 0 :=
  and_two_pow_ne_zero x 0

theorem and_two_ne_zero (x : Nat) : ((x &&& 2) != 0) = x.testBit 1 :=
  and_two_pow_ne_zero x 1

theorem and_four_ne_zero (x : Nat) : ((x &&& 4) != 0) = x.testBit 2 :=
  and_two_pow_ne_zero x 2

theorem and_eight_ne_zero (x : Nat) : ((x &&& 8) != 0) = x.testBit 3 :=
  and_two_pow_ne_zero x 3

theorem testBit_mod_256 (x i : Nat) :
    (x % 256).testBit i = (decide (i < 8) && x.testBit i) := by
  have h : (256 : Nat) = 2 ^ 8 := by norm_num
  rw [h, Nat.testBit_mod_two_pow]

theorem lor_eq_zero (a b : Nat) : a ||| b = 0 ↔ a = 0 ∧ b = 0 := by
  constructor
  · intro h
    have hbit : ∀ i, a.testBit i = false ∧ b.testBit i = false := by
      intro i
      have hi := congrArg (fun n => Nat.testBit n i) h
      simpa only [Nat.testBit_or, Nat.zero_testBit, Bool.or_eq_false_iff] using hi
    constructor
    · apply Nat.eq_of_testBit_eq
      intro i
      simp [(hbit i).1]
    · apply Nat.eq_of_testBit_eq
      intro i
      simp [(hbit i).2]
  · rintro ⟨rfl, rfl⟩
    rfl

theorem lor_ne_zero (a b : Nat) : ((a ||| b) != 0) = ((a != 0) || (b != 0)) := by
  rw [Bool.eq_iff_iff]
  simp only [bne_iff_ne, ne_eq, lor_eq_zero, Bool.or_eq_true]
  tauto

theorem and_error_mask_ne_zero (x : Nat) :
    ((x &&& (1 ||| 2 ||| 4)) != 0) = (x.testBit 0 || x.testBit 1 || x.testBit 2) := by
  rw [Nat.and_or_distrib_left, Nat.and_or_distrib_left, lor_ne_zero, lor_ne_zero,
    and_one_ne_zero, and_two_ne_zero, and_four_ne_zero]

theorem testBit_flag_literals :
    Nat.testBit 1 0 = true ∧ Nat.testBit 1 1 = false ∧ Nat.testBit 1 2 = false ∧
    Nat.testBit 1 3 = false ∧ Nat.testBit 2 0 = false ∧ Nat.testBit 2 1 = true ∧
    Nat.testBit 2 2 = false ∧ Nat.testBit 2 3 = false ∧ Nat.testBit 4 0 = false ∧
    Nat.testBit 4 1 = false ∧ Nat.testBit 4 2 = true ∧ Nat.testBit 4 3 = false ∧
    Nat.testBit 8 0 = false ∧ Nat.testBit 8 1 = false ∧ Nat.testBit 8 2 = false ∧
    Nat.testBit 8 3 = true := by decide

namespace OsqueryStateHandler

/-! ### Each query as one bit of the flag word -/

theorem isFatalError_eq_testBit (h : OsqueryStateHandler) :
    h.isFatalError = h.OSQUERY_STATE.testBit 0 := by
  simp only [isFatalError, FATAL_ERROR, and_one_ne_zero]

theorem isOpenFDError_eq_testBit (h : OsqueryStateHandler) :
    h.isOpenFDError = h.OSQUERY_STATE.testBit 1 := by
  simp only [isOpenFDError, OPEN_FD_ERROR, and_two_ne_zero]

theorem isReadError_eq_testBit (h : OsqueryStateHandler) :
    h.isReadError = h.OSQUERY_STATE.testBit 2 := by
  simp only [isReadError, READ_ERROR, and_four_ne_zero]

theorem isReadSuccess_eq_testBit (h : OsqueryStateHandler) :
    h.isReadSuccess = h.OSQUERY_STATE.testBit 3 := by
  simp only [isReadSuccess, READ_SUCCESS, and_eight_ne_zero]

theorem isErrorState_eq_testBit (h : OsqueryStateHandler) :
    h.isErrorState =
      (h.OSQUERY_STATE.testBit 0 || h.OSQUERY_STATE.testBit 1 || h.OSQUERY_STATE.testBit 2) := by
  simp only [isErrorState, FATAL_ERROR, OPEN_FD_ERROR, READ_ERROR, and_error_mask_ne_zero]

theorem testBit_setFatalError (h : OsqueryStateHandler) (i : Nat) :
    h.setFatalError.OSQUERY_STATE.testBit i
      = (decide (i < 8) && (h.OSQUERY_STATE.testBit i || Nat.testBit 1 i)) := by
  simp only [setFatalError, FATAL_ERROR, testBit_mod_256, Nat.testBit_or]

theorem testBit_setOpenFDError (h : OsqueryStateHandler) (i : Nat) :
    h.setOpenFDError.OSQUERY_STATE.testBit i
      = (decide (i < 8) && (h.OSQUERY_STATE.testBit i || Nat.testBit 2 i)) := by
  simp only [setOpenFDError, OPEN_FD_ERROR, testBit_mod_256, Nat.testBit_or]

theorem testBit_setReadError (h : OsqueryStateHandler) (i : Nat) :
    h.setReadError.OSQUERY_STATE.testBit i
      = (decide (i < 8) && (h.OSQUERY_STATE.testBit i || Nat.testBit 4 i)) := by
  simp only [setReadError, READ_ERROR, testBit_mod_256, Nat.testBit_or]

theorem testBit_setReadSuccess (h : OsqueryStateHandler) (i : Nat) :
    h.setReadSuccess.OSQUERY_STATE.testBit i
      = (decide (i < 8) && (h.OSQUERY_STATE.testBit i || Nat.testBit 8 i)) := by
  simp only [setReadSuccess, READ_SUCCESS, testBit_mod_256, Nat.testBit_or]

theorem testBit_refresh (h : OsqueryStateHandler) (i : Nat) :
    h.refresh.OSQUERY_STATE.testBit i
      = (decide (i < 8) && (h.OSQUERY_STATE.testBit i && (Nat.testBit 1 i || Nat.testBit 2 i))) := by
  simp only [refresh, FATAL_ERROR, OPEN_FD_ERROR, testBit_mod_256, Nat.testBit_and,
    Nat.testBit_or]

/-- C1. `refresh()` keeps `isFatalError`, `isOpenFDError` and `isAuditEnabled` as they were and
makes `isReadError` and `isReadSuccess` false, from every state. -/
theorem refresh_frame (h : OsqueryStateHandler) :
    h.refresh.isFatalError = h.isFatalError ∧
    h.refresh.isOpenFDError = h.isOpenFDError ∧
    h.refresh.isReadError = false ∧
    h.refresh.isReadSuccess = false ∧
    h.refresh.isAuditEnabled = h.isAuditEnabled := by
  simp only [isFatalError_eq_testBit, isOpenFDError_eq_testBit, isReadError_eq_testBit,
    isReadSuccess_eq_testBit, testBit_refresh, testBit_flag_literals]
  simp [isAuditEnabled, refresh]

/-- C2. After `reset()` all four flag queries and `isAuditEnabled` are false, and the state is
the one the constructor produces. -/
theorem reset_eq_ctor (h : OsqueryStateHandler) :
    h.reset.isFatalError = false ∧
    h.reset.isOpenFDError = false ∧
    h.reset.isReadError = false ∧
    h.reset.isReadSuccess = false ∧
    h.reset.isAuditEnabled = false ∧
    h.reset = OsqueryStateHandler.ctor := by
  simp [reset, ctor, isFatalError, isOpenFDError, isReadError, isReadSuccess, isAuditEnabled]

/-- C3. `isErrorState()` is true exactly when one of `isFatalError()`, `isOpenFDError()`,
`isReadError()` is true; two states that agree on these three queries agree on
`isErrorState()`, whatever their ReadSuccess bit and audit flag. -/
theorem isErrorState_iff (h : OsqueryStateHandler) :
    (h.isErrorState = true ↔
      (h.isFatalError = true ∨ h.isOpenFDError = true ∨ h.isReadError = true)) ∧
    (∀ g : OsqueryStateHandler, g.isFatalError = h.isFatalError →
      g.isOpenFDError = h.isOpenFDError → g.isReadError = h.isReadError →
      g.isErrorState = h.isErrorState) := by
  constructor
  · simp only [isErrorState_eq_testBit, isFatalError_eq_testBit, isOpenFDError_eq_testBit,
      isReadError_eq_testBit, Bool.or_eq_true, or_assoc]
  · intro g
    simp only [isErrorState_eq_testBit, isFatalError_eq_testBit, isOpenFDError_eq_testBit,
      isReadError_eq_testBit]
    intro h0 h1 h2
    rw [h0, h1, h2]

theorem isErrorState_iff_witness :
    OsqueryStateHandler.isErrorState ⟨9, true⟩ = OsqueryStateHandler.isErrorState ⟨1, false⟩ :=
  (isErrorState_iff ⟨1, false⟩).2 ⟨9, true⟩ (by decide) (by decide) (by decide)

/-- C4. Each of `setFatalError`, `setOpenFDError`, `setReadError`, `setReadSuccess` makes its own
query true and leaves the other three flag queries and `isAuditEnabled` as they were. -/
theorem set_flag_frame (h : OsqueryStateHandler) :
    (h.setFatalError.isFatalError = true ∧
      h.setFatalError.isOpenFDError = h.isOpenFDError ∧
      h.setFatalError.isReadError = h.isReadError ∧
      h.setFatalError.isReadSuccess = h.isReadSuccess ∧
      h.setFatalError.isAuditEnabled = h.isAuditEnabled) ∧
    (h.setOpenFDError.isOpenFDError = true ∧
      h.setOpenFDError.isFatalError = h.isFatalError ∧
      h.setOpenFDError.isReadError = h.isReadError ∧
      h.setOpenFDError.isReadSuccess = h.isReadSuccess ∧
      h.setOpenFDError.isAuditEnabled = h.isAuditEnabled) ∧
    (h.setReadError.isReadError = true ∧
      h.setReadError.isFatalError = h.isFatalError ∧
      h.setReadError.isOpenFDError = h.isOpenFDError ∧
      h.setReadError.isReadSuccess = h.isReadSuccess ∧
      h.setReadError.isAuditEnabled = h.isAuditEnabled) ∧
    (h.setReadSuccess.isReadSuccess = true ∧
      h.setReadSuccess.isFatalError = h.isFatalError ∧
      h.setReadSuccess.isOpenFDError = h.isOpenFDError ∧
      h.setReadSuccess.isReadError = h.isReadError ∧
      h.setReadSuccess.isAuditEnabled = h.isAuditEnabled) := by
  simp only [isFatalError_eq_testBit, isOpenFDError_eq_testBit, isReadError_eq_testBit,
    isReadSuccess_eq_testBit, testBit_setFatalError, testBit_setOpenFDError,
    testBit_setReadError, testBit_setReadSuccess, testBit_flag_literals]
  simp [isAuditEnabled, setFatalError, setOpenFDError, setReadError, setReadSuccess]

theorem isFatalError_run (c : StateCall) (hc : c ≠ StateCall.reset) (h : OsqueryStateHandler)
    (hf : h.isFatalError = true) : (c.run h).isFatalError = true := by
  cases c with
  | reset => exact absurd rfl hc
  | setAuditEnabled enabled => exact hf
  | _ =>
    simp only [isFatalError_eq_testBit] at hf
    simp only [StateCall.run, isFatalError_eq_testBit, testBit_setFatalError,
      testBit_setOpenFDError, testBit_setReadError, testBit_setReadSuccess, testBit_refresh,
      testBit_flag_literals, hf]
    decide

theorem isOpenFDError_run (c : StateCall) (hc : c ≠ StateCall.reset) (h : OsqueryStateHandler)
    (hf : h.isOpenFDError = true) : (c.run h).isOpenFDError = true := by
  cases c with
  | reset => exact absurd rfl hc
  | setAuditEnabled enabled => exact hf
  | _ =>
    simp only [isOpenFDError_eq_testBit] at hf
    simp only [StateCall.run, isOpenFDError_eq_testBit, testBit_setFatalError,
      testBit_setOpenFDError, testBit_setReadError, testBit_setReadSuccess, testBit_refresh,
      testBit_flag_literals, hf]
    decide

end OsqueryStateHandler

theorem isFatalError_runCalls (calls : List StateCall) (hno : StateCall.reset ∉ calls) :
    ∀ h : OsqueryStateHandler, h.isFatalError = true → (runCalls calls h).isFatalError = true := by
  induction calls with
  | nil => intro h hf; exact hf
  | cons c cs ih =>
    intro h hf
    have hc : c ≠ StateCall.reset := fun e => hno (by simp [e])
    have hcs : StateCall.reset ∉ cs := fun e => hno (by simp [e])
    exact ih hcs (c.run h) (OsqueryStateHandler.isFatalError_run c hc h hf)

theorem isOpenFDError_runCalls (calls : List StateCall) (hno : StateCall.reset ∉ calls) :
    ∀ h : OsqueryStateHandler, h.isOpenFDError = true →
      (runCalls calls h).isOpenFDError = true := by
  induction calls with
  | nil => intro h hf; exact hf
  | cons c cs ih =>
    intro h hf
    have hc : c ≠ StateCall.reset := fun e => hno (by simp [e])
    have hcs : StateCall.reset ∉ cs := fun e => hno (by simp [e])
    exact ih hcs (c.run h) (OsqueryStateHandler.isOpenFDError_run c hc h hf)

/-- C5. Along any finite sequence of calls that contains no `reset()`, a set FatalError flag stays
set, and so does a set OpenFDError flag; in both cases `isErrorState()` is true afterwards. -/
theorem sticky_without_reset (h : OsqueryStateHandler) (calls : List StateCall)
    (hno : StateCall.reset ∉ calls) :
    (h.isFatalError = true →
      (runCalls calls h).isFatalError = true ∧ (runCalls calls h).isErrorState = true) ∧
    (h.isOpenFDError = true →
      (runCalls calls h).isOpenFDError = true ∧ (runCalls calls h).isErrorState = true) := by
  constructor
  · intro hf
    have hk := isFatalError_runCalls calls hno h hf
    refine ⟨hk, ?_⟩
    rw [OsqueryStateHandler.isFatalError_eq_testBit] at hk
    simp [OsqueryStateHandler.isErrorState_eq_testBit, hk]
  · intro hf
    have hk := isOpenFDError_runCalls calls hno h hf
    refine ⟨hk, ?_⟩
    rw [OsqueryStateHandler.isOpenFDError_eq_testBit] at hk
    simp [OsqueryStateHandler.isErrorState_eq_testBit, hk]

theorem sticky_without_reset_witness :
    (runCalls [StateCall.refresh, StateCall.setReadSuccess, StateCall.setAuditEnabled true,
        StateCall.refresh] ⟨3, false⟩).isFatalError = true ∧
    (runCalls [StateCall.refresh, StateCall.setReadSuccess, StateCall.setAuditEnabled true,
        StateCall.refresh] ⟨3, false⟩).isOpenFDError = true :=
  ⟨((sticky_without_reset ⟨3, false⟩ [StateCall.refresh, StateCall.setReadSuccess,
      StateCall.setAuditEnabled true, StateCall.refresh] (by decide)).1 (by decide)).1,
   ((sticky_without_reset ⟨3, false⟩ [StateCall.refresh, StateCall.setReadSuccess,
      StateCall.setAuditEnabled true, StateCall.refresh] (by decide)).2 (by decide)).1⟩

/-! ## The buffer after `fillIPFIX` -/

theorem c_str_length (s : String) : (c_str s).length = s.length := by
  simp [c_str]

theorem writtenString_length (s : String) : (writtenString s).length = s.length + 1 := by
  simp [writtenString, c_str_length]

theorem writtenU16_length (v : Nat) : (writtenU16 v).length = 2 := rfl

theorem string_block_eq_overlay (buffer : Nat → Nat) (pos : Nat) (s : String) :
    memcpy (storeU8 buffer pos s.length) (pos + 1) (c_str s) s.length
      = overlay buffer pos (writtenString s) := by
  funext j
  simp only [memcpy, storeU8, overlay, writtenString_length]
  by_cases h1 : pos + 1 ≤ j ∧ j < pos + 1 + s.length
  · have h2 : pos ≤ j ∧ j < pos + (s.length + 1) := by omega
    have h3 : j - pos = (j - (pos + 1)) + 1 := by omega
    rw [if_pos h1, if_pos h2, h3]
    simp [writtenString]
  · rw [if_neg h1]
    by_cases h4 : j = pos
    · subst h4
      simp [writtenString]
    · have h5 : ¬ (pos ≤ j ∧ j < pos + (s.length + 1)) := by omega
      rw [if_neg h4, if_neg h5]

theorem ntohs_bytes (v : Nat) :
    (v % 256 * 256 + v / 256 % 256) % 256 = v / 256 % 256 ∧
    (v % 256 * 256 + v / 256 % 256) / 256 % 256 = v % 256 ∧
    v % 65536 / 256 % 256 = v / 256 % 256 ∧
    v % 65536 % 256 = v % 256 := by
  have hlt : v / 256 % 256 < 256 := Nat.mod_lt _ (by norm_num)
  have hlo : v % 256 < 256 := Nat.mod_lt _ (by norm_num)
  refine ⟨?_, ?_, ?_, ?_⟩
  · rw [Nat.add_comm, Nat.add_mul_mod_self_right, Nat.mod_mod]
  · rw [Nat.add_comm, Nat.add_mul_div_right _ _ (by norm_num : 0 < 256),
      Nat.div_eq_of_lt hlt, Nat.zero_add, Nat.mod_mod]
  · omega
  · omega

theorem u16_block_eq_overlay (hostLittleEndian : Bool) (buffer : Nat → Nat) (pos v : Nat) :
    storeU16 hostLittleEndian buffer pos (ntohs hostLittleEndian v)
      = overlay buffer pos (writtenU16 v) := by
  funext j
  simp only [storeU16, overlay, writtenU16_length]
  by_cases h1 : j = pos
  · subst h1
    cases hostLittleEndian <;> simp [ntohs, writtenU16, ntohs_bytes, -Nat.add_mod_mod]
  · by_cases h2 : j = pos + 1
    · subst h2
      cases hostLittleEndian <;> simp [ntohs, writtenU16, ntohs_bytes]
    · have h3 : ¬ (pos ≤ j ∧ j < pos + 2) := by omega
      rw [if_neg h1, if_neg h2, if_neg h3]

theorem overlay_overlay (buffer : Nat → Nat) (pos : Nat) (l1 l2 : List Nat) :
    overlay (overlay buffer pos l1) (pos + l1.length) l2 = overlay buffer pos (l1 ++ l2) := by
  funext j
  simp only [overlay, List.length_append]
  by_cases h1 : pos + l1.length ≤ j ∧ j < pos + l1.length + l2.length
  · have h2 : pos ≤ j ∧ j < pos + (l1.length + l2.length) := by omega
    have h3 : l1.length ≤ j - pos := by omega
    have h4 : j - pos - l1.length = j - (pos + l1.length) := by omega
    rw [if_pos h1, if_pos h2, List.getD_append_right _ _ _ _ h3, h4]
  · rw [if_neg h1]
    by_cases h5 : pos ≤ j ∧ j < pos + l1.length
    · have h2 : pos ≤ j ∧ j < pos + (l1.length + l2.length) := by omega
      have h3 : j - pos < l1.length := by omega
      rw [if_pos h5, if_pos h2, List.getD_append _ _ _ _ h3]
    · have h2 : ¬ (pos ≤ j ∧ j < pos + (l1.length + l2.length)) := by omega
      rw [if_neg h5, if_neg h2]

theorem overlay_nil (buffer : Nat → Nat) (pos : Nat) : overlay buffer pos [] = buffer := by
  funext j
  simp [overlay]

theorem overlayAll_eq_overlay (cs : List (List Nat)) :
    ∀ (pos : Nat) (buffer : Nat → Nat), overlayAll cs pos buffer = overlay buffer pos cs.flatten := by
  induction cs with
  | nil => intro pos buffer; simp [overlayAll, overlay_nil]
  | cons c cs ih =>
    intro pos buffer
    rw [overlayAll, ih, overlay_overlay, List.flatten_cons]

theorem readBytes_overlay (buffer : Nat → Nat) (l : List Nat) :
    readBytes (overlay buffer 0 l) l.length = l := by
  apply List.ext_getElem
  · simp [readBytes]
  · intro i h1 h2
    simp only [readBytes, List.length_map, List.length_range] at h1
    simp [readBytes, overlay, h2]

theorem written_join_length (r : RecordExtOSQUERY) :
    r.writtenChunks.flatten.length = r.encodedLength := by
  simp only [RecordExtOSQUERY.writtenChunks, List.flatten_cons, List.flatten_nil, List.length_append,
    writtenString_length, writtenU16_length, List.length_nil, RecordExtOSQUERY.encodedLength]
  omega

theorem fillIPFIX_of_fits (r : RecordExtOSQUERY) (hostLittleEndian : Bool)
    (buffer : Nat → Nat) (size : Int) (hsize : (r.encodedLength : Int) ≤ size) :
    r.fillIPFIX hostLittleEndian buffer size
      = ((r.encodedLength : Int), overlay buffer 0 r.writtenChunks.flatten) := by
  simp only [RecordExtOSQUERY.encodedLength] at hsize
  simp only [RecordExtOSQUERY.fillIPFIX]
  iterate 9 rw [if_neg (by omega)]
  rw [← overlayAll_eq_overlay]
  simp only [string_block_eq_overlay, u16_block_eq_overlay, RecordExtOSQUERY.writtenChunks,
    overlayAll, writtenString_length, writtenU16_length, RecordExtOSQUERY.encodedLength]
  congr 1
  omega

theorem overlay_flatten_at (buffer : Nat → Nat) (pre post : List (List Nat)) (b : Nat)
    (l : List Nat) :
    overlay buffer 0 (pre ++ (b :: l) :: post).flatten pre.flatten.length = b := by
  have h1 : pre.flatten.length < (pre ++ (b :: l) :: post).flatten.length := by
    simp only [List.flatten_append, List.flatten_cons, List.length_append, List.length_cons]
    omega
  simp only [overlay, Nat.zero_le, Nat.zero_add, h1, and_self, if_true, Nat.sub_zero]
  rw [List.flatten_append, List.getD_append_right _ _ _ _ (Nat.le_refl _)]
  simp

theorem writtenString_eq_wireString (s : String) (h : s.length ≤ 255) :
    writtenString s = wireString s := by
  simp only [writtenString, wireString]
  rw [Nat.mod_eq_of_lt (by omega)]

theorem writtenU16_eq_wireU16 (v : Nat) : writtenU16 v = wireU16 v := by
  simp only [writtenU16, wireU16]
  have h := ntohs_bytes v
  have h1 : v % 65536 / 256 = v / 256 % 256 := by omega
  rw [h1, h.2.2.2]

/-- C6. When each of the nine strings is at most 255 long and `size` is at least the encoded
length, `fillIPFIX` returns that length and the buffer then starts with the wire format of the
specification: per string one length byte and the raw bytes, per number two bytes high byte
first, in the order of the eleven fields. This holds on little-endian and big-endian hosts. -/
theorem fillIPFIX_wireFormat (r : RecordExtOSQUERY) (hostLittleEndian : Bool)
    (buffer : Nat → Nat) (size : Int)
    (hlen : r.program_name.length ≤ 255 ∧ r.username.length ≤ 255 ∧ r.os_name.length ≤ 255 ∧
      r.os_build.length ≤ 255 ∧ r.os_platform.length ≤ 255 ∧ r.os_platform_like.length ≤ 255 ∧
      r.os_arch.length ≤ 255 ∧ r.kernel_version.length ≤ 255 ∧ r.system_hostname.length ≤ 255)
    (hsize : (r.encodedLength : Int) ≤ size) :
    (r.fillIPFIX hostLittleEndian buffer size).1 = r.encodedLength ∧
    readBytes (r.fillIPFIX hostLittleEndian buffer size).2 r.encodedLength = r.wireFormat := by
  obtain ⟨h1, h2, h3, h4, h5, h6, h7, h8, h9⟩ := hlen
  rw [fillIPFIX_of_fits r hostLittleEndian buffer size hsize]
  refine ⟨rfl, ?_⟩
  rw [← written_join_length, readBytes_overlay]
  simp only [RecordExtOSQUERY.writtenChunks, RecordExtOSQUERY.wireFormat, List.flatten_cons,
    List.flatten_nil, List.append_nil, List.append_assoc, writtenU16_eq_wireU16,
    writtenString_eq_wireString _ h1, writtenString_eq_wireString _ h2,
    writtenString_eq_wireString _ h3, writtenString_eq_wireString _ h4,
    writtenString_eq_wireString _ h5, writtenString_eq_wireString _ h6,
    writtenString_eq_wireString _ h7, writtenString_eq_wireString _ h8,
    writtenString_eq_wireString _ h9]

theorem fillIPFIX_wireFormat_witness :
    (RecordExtOSQUERY.ctor.fillIPFIX true (fun _ => 0) 100).1
        = RecordExtOSQUERY.ctor.encodedLength ∧
    readBytes (RecordExtOSQUERY.ctor.fillIPFIX true (fun _ => 0) 100).2
        RecordExtOSQUERY.ctor.encodedLength = RecordExtOSQUERY.ctor.wireFormat :=
  fillIPFIX_wireFormat RecordExtOSQUERY.ctor true (fun _ => 0) 100 (by decide) (by decide)

/-- C7, at the failing input. With a program name of 256 characters and room for the whole
record, `fillIPFIX` succeeds and the length byte it leaves at offset 0 is 0, while the length
capped at 255 is 255: the store into the `uint8_t` cell cuts the length to 8 bits. -/
theorem length_byte_not_capped :
    (longNameRecord.fillIPFIX true (fun _ => 7) 400).1 = 341 ∧
    (longNameRecord.fillIPFIX true (fun _ => 7) 400).2 0 = 0 ∧
    min longNameRecord.program_name.length 255 = 255 := by
  decide

/-- The length byte in general. Whenever `size` is at least the encoded length, the byte stored
at the start of each of the nine string blocks is the length of the field cut to 8 bits, while
the whole text is copied behind it; the byte is the length itself only for a field of at most
255 characters. -/
theorem length_byte_mod_256 (r : RecordExtOSQUERY) (hostLittleEndian : Bool)
    (buffer : Nat → Nat) (size : Int) (hsize : (r.encodedLength : Int) ≤ size) :
    (r.fillIPFIX hostLittleEndian buffer size).2 0 = r.program_name.length % 256 ∧
    (r.fillIPFIX hostLittleEndian buffer size).2 (r.program_name.length + 1)
      = r.username.length % 256 ∧
    (r.fillIPFIX hostLittleEndian buffer size).2
        (r.program_name.length + 1 + (r.username.length + 1))
      = r.os_name.length % 256 ∧
    (r.fillIPFIX hostLittleEndian buffer size).2
        (r.program_name.length + 1 + (r.username.length + 1) + (r.os_name.length + 1) + 4)
      = r.os_build.length % 256 ∧
    (r.fillIPFIX hostLittleEndian buffer size).2
        (r.program_name.length + 1 + (r.username.length + 1) + (r.os_name.length + 1) + 4 +
          (r.os_build.length + 1))
      = r.os_platform.length % 256 ∧
    (r.fillIPFIX hostLittleEndian buffer size).2
        (r.program_name.length + 1 + (r.username.length + 1) + (r.os_name.length + 1) + 4 +
          (r.os_build.length + 1) + (r.os_platform.length + 1))
      = r.os_platform_like.length % 256 ∧
    (r.fillIPFIX hostLittleEndian buffer size).2
        (r.program_name.length + 1 + (r.username.length + 1) + (r.os_name.length + 1) + 4 +
          (r.os_build.length + 1) + (r.os_platform.length + 1) +
          (r.os_platform_like.length + 1))
      = r.os_arch.length % 256 ∧
    (r.fillIPFIX hostLittleEndian buffer size).2
        (r.program_name.length + 1 + (r.username.length + 1) + (r.os_name.length + 1) + 4 +
          (r.os_build.length + 1) + (r.os_platform.length + 1) +
          (r.os_platform_like.length + 1) + (r.os_arch.length + 1))
      = r.kernel_version.length % 256 ∧
    (r.fillIPFIX hostLittleEndian buffer size).2
        (r.program_name.length + 1 + (r.username.length + 1) + (r.os_name.length + 1) + 4 +
          (r.os_build.length + 1) + (r.os_platform.length + 1) +
          (r.os_platform_like.length + 1) + (r.os_arch.length + 1) +
          (r.kernel_version.length + 1))
      = r.system_hostname.length % 256 ∧
    (∀ n : Nat, n ≤ 255 → n % 256 = min n 255) := by
  rw [fillIPFIX_of_fits r hostLittleEndian buffer size hsize]
  have key : ∀ (pre post : List (List Nat)) (s : String) (pos : Nat),
      r.writtenChunks = pre ++ writtenString s :: post → pre.flatten.length = pos →
      overlay buffer 0 r.writtenChunks.flatten pos = s.length % 256 := by
    intro pre post s pos hsplit hpos
    rw [hsplit, ← hpos]
    exact overlay_flatten_at buffer pre post (s.length % 256) (c_str s)
  have hlen : ∀ (pre : List (List Nat)) (pos : Nat),
      (pre.map List.length).sum = pos → pre.flatten.length = pos := by
    intro pre pos hp
    rw [List.length_flatten, hp]
  refine ⟨?_, ?_, ?_, ?_, ?_, ?_, ?_, ?_, ?_, fun n hn => by omega⟩
  · exact key [] _ r.program_name _ rfl rfl
  · exact key [writtenString r.program_name] _ r.username _ rfl
      (hlen _ _ (by
        simp only [List.map, List.sum_cons, List.sum_nil, writtenString_length, writtenU16_length]
        omega))
  · exact key [writtenString r.program_name, writtenString r.username] _ r.os_name _ rfl
      (hlen _ _ (by
        simp only [List.map, List.sum_cons, List.sum_nil, writtenString_length, writtenU16_length]
        omega))
  · exact key [writtenString r.program_name, writtenString r.username, writtenString r.os_name,
      writtenU16 r.os_major, writtenU16 r.os_minor] _ r.os_build _ rfl
      (hlen _ _ (by
        simp only [List.map, List.sum_cons, List.sum_nil, writtenString_length, writtenU16_length]
        omega))
  · exact key [writtenString r.program_name, writtenString r.username, writtenString r.os_name,
      writtenU16 r.os_major, writtenU16 r.os_minor, writtenString r.os_build] _
      r.os_platform _ rfl
      (hlen _ _ (by
        simp only [List.map, List.sum_cons, List.sum_nil, writtenString_length, writtenU16_length]
        omega))
  · exact key [writtenString r.program_name, writtenString r.username, writtenString r.os_name,
      writtenU16 r.os_major, writtenU16 r.os_minor, writtenString r.os_build,
      writtenString r.os_platform] _ r.os_platform_like _ rfl
      (hlen _ _ (by
        simp only [List.map, List.sum_cons, List.sum_nil, writtenString_length, writtenU16_length]
        omega))
  · exact key [writtenString r.program_name, writtenString r.username, writtenString r.os_name,
      writtenU16 r.os_major, writtenU16 r.os_minor, writtenString r.os_build,
      writtenString r.os_platform, writtenString r.os_platform_like] _ r.os_arch _ rfl
      (hlen _ _ (by
        simp only [List.map, List.sum_cons, List.sum_nil, writtenString_length, writtenU16_length]
        omega))
  · exact key [writtenString r.program_name, writtenString r.username, writtenString r.os_name,
      writtenU16 r.os_major, writtenU16 r.os_minor, writtenString r.os_build,
      writtenString r.os_platform, writtenString r.os_platform_like, writtenString r.os_arch] _
      r.kernel_version _ rfl
      (hlen _ _ (by
        simp only [List.map, List.sum_cons, List.sum_nil, writtenString_length, writtenU16_length]
        omega))
  · exact key [writtenString r.program_name, writtenString r.username, writtenString r.os_name,
      writtenU16 r.os_major, writtenU16 r.os_minor, writtenString r.os_build,
      writtenString r.os_platform, writtenString r.os_platform_like, writtenString r.os_arch,
      writtenString r.kernel_version] _ r.system_hostname _ rfl
      (hlen _ _ (by
        simp only [List.map, List.sum_cons, List.sum_nil, writtenString_length, writtenU16_length]
        omega))

/-- The cut length byte makes the encoding ambiguous: the record with the 256-character program
name and a different record, whose strings are all at most 255 long, both succeed with length
399 and leave the same 399 bytes. -/
theorem long_name_encoding_collision :
    collidingLongRecord ≠ collidingShortRecord ∧
    collidingLongRecord.program_name.length = 256 ∧
    collidingShortRecord.stringsFit ∧
    (collidingLongRecord.fillIPFIX true (fun _ => 7) 399).1 = 399 ∧
    (collidingShortRecord.fillIPFIX true (fun _ => 7) 399).1 = 399 ∧
    readBytes (collidingLongRecord.fillIPFIX true (fun _ => 7) 399).2 399
      = readBytes (collidingShortRecord.fillIPFIX true (fun _ => 7) 399).2 399 := by
  decide

theorem ite_fst {α : Type} (c : Prop) [Decidable c] (b : α) (rest : Int × α) :
    (if c then ((-1 : Int), b) else rest).1 = if c then -1 else rest.1 := by
  split_ifs <;> rfl

theorem pair_fst {α : Type} (x : Int) (b : α) : (x, b).1 = x := rfl

theorem fillIPFIX_fst (r : RecordExtOSQUERY) (hostLittleEndian : Bool)
    (buffer : Nat → Nat) (size : Int) :
    (r.fillIPFIX hostLittleEndian buffer size).1
      = if size < (r.encodedLength : Int) then -1 else (r.encodedLength : Int) := by
  by_cases h : size < (r.encodedLength : Int)
  · rw [if_pos h]
    simp only [RecordExtOSQUERY.encodedLength] at h
    simp only [RecordExtOSQUERY.fillIPFIX]
    rw [ite_fst, ite_fst, ite_fst, ite_fst, ite_fst, ite_fst, ite_fst, ite_fst, ite_fst,
      pair_fst]
    iterate 9 refine ite_eq_left_iff.mpr (fun _ => ?_)
    omega
  · rw [if_neg h, fillIPFIX_of_fits r hostLittleEndian buffer size (by omega)]

/-- C8. `fillIPFIX` returns -1 exactly when the encoded length `L` (the nine string lengths plus
9 plus 4) is greater than `size`, and returns `L` otherwise; for the default record `L` is 94. -/
theorem fillIPFIX_return (r : RecordExtOSQUERY) (hostLittleEndian : Bool)
    (buffer : Nat → Nat) (size : Int) :
    ((r.fillIPFIX hostLittleEndian buffer size).1 = -1 ↔ (r.encodedLength : Int) > size) ∧
    (r.fillIPFIX hostLittleEndian buffer size).1
      = (if (r.encodedLength : Int) > size then -1 else (r.encodedLength : Int)) ∧
    (r.encodedLength : Int)
      = ((r.program_name.length + r.username.length + r.os_name.length + r.os_build.length +
          r.os_platform.length + r.os_platform_like.length + r.os_arch.length +
          r.kernel_version.length + r.system_hostname.length : Nat) : Int) + 9 + 4 ∧
    (RecordExtOSQUERY.ctor.fillIPFIX hostLittleEndian buffer size).1
      = (if size < 94 then -1 else 94) := by
  refine ⟨?_, ?_, ?_, ?_⟩
  · rw [fillIPFIX_fst]
    constructor
    · intro h1
      by_contra h2
      rw [if_neg (by omega)] at h1
      omega
    · intro h1
      rw [if_pos (by omega)]
  · rw [fillIPFIX_fst]
  · simp only [RecordExtOSQUERY.encodedLength]
    omega
  · have h94 : RecordExtOSQUERY.ctor.encodedLength = 94 := by decide
    rw [fillIPFIX_fst, h94]
    rfl

/-- C9. The default constructor sets every string field to the text UNDEFINED and both numeric
fields to 0. -/
theorem ctor_fields :
    RecordExtOSQUERY.ctor.program_name = "UNDEFINED" ∧
    RecordExtOSQUERY.ctor.username = "UNDEFINED" ∧
    RecordExtOSQUERY.ctor.os_name = "UNDEFINED" ∧
    RecordExtOSQUERY.ctor.os_major = 0 ∧
    RecordExtOSQUERY.ctor.os_minor = 0 ∧
    RecordExtOSQUERY.ctor.os_build = "UNDEFINED" ∧
    RecordExtOSQUERY.ctor.os_platform = "UNDEFINED" ∧
    RecordExtOSQUERY.ctor.os_platform_like = "UNDEFINED" ∧
    RecordExtOSQUERY.ctor.os_arch = "UNDEFINED" ∧
    RecordExtOSQUERY.ctor.kernel_version = "UNDEFINED" ∧
    RecordExtOSQUERY.ctor.system_hostname = "UNDEFINED" :=
  ⟨rfl, rfl, rfl, rfl, rfl, rfl, rfl, rfl, rfl, rfl, rfl⟩

/-- C10. The constants have the values the specification fixes: `BUFFER_SIZE` is 20481,
`READ_SIZE` 1024, `POLL_TIMEOUT` 200, `MAX_NUMBER_OF_ATTEMPTS` 2 and `DEFAULT_FILL_TEXT` is the
text UNDEFINED. -/
theorem protocol_constants :
    BUFFER_SIZE = 20481 ∧ READ_SIZE = 1024 ∧ POLL_TIMEOUT = 200 ∧
    MAX_NUMBER_OF_ATTEMPTS = 2 ∧ DEFAULT_FILL_TEXT = "UNDEFINED" :=
  ⟨rfl, rfl, rfl, rfl, rfl⟩

/-! ## The capability flag, the copying constructor -/

/-- C13. After `setAuditEnabled(b)` the query `isAuditEnabled()` returns `b`, and the four flag
queries and `isErrorState()` return what they returned before. -/
theorem setAuditEnabled_frame (h : OsqueryStateHandler) (b : Bool) :
    (h.setAuditEnabled b).isAuditEnabled = b ∧
    (h.setAuditEnabled b).isFatalError = h.isFatalError ∧
    (h.setAuditEnabled b).isOpenFDError = h.isOpenFDError ∧
    (h.setAuditEnabled b).isReadError = h.isReadError ∧
    (h.setAuditEnabled b).isReadSuccess = h.isReadSuccess ∧
    (h.setAuditEnabled b).isErrorState = h.isErrorState :=
  ⟨rfl, rfl, rfl, rfl, rfl, rfl⟩

/-- C16. The record built by the copying constructor agrees with the original in all eleven
members, so it is the same record, and `fillIPFIX` on the copy returns the same value and leaves
the same buffer as on the original, for every host, buffer and size. -/
theorem copy_eq (r : RecordExtOSQUERY) :
    (r.copy.program_name = r.program_name ∧ r.copy.username = r.username ∧
      r.copy.os_name = r.os_name ∧ r.copy.os_major = r.os_major ∧
      r.copy.os_minor = r.os_minor ∧ r.copy.os_build = r.os_build ∧
      r.copy.os_platform = r.os_platform ∧ r.copy.os_platform_like = r.os_platform_like ∧
      r.copy.os_arch = r.os_arch ∧ r.copy.kernel_version = r.kernel_version ∧
      r.copy.system_hostname = r.system_hostname) ∧
    r.copy = r ∧
    (∀ (hostLittleEndian : Bool) (buffer : Nat → Nat) (size : Int),
      r.copy.fillIPFIX hostLittleEndian buffer size = r.fillIPFIX hostLittleEndian buffer size) :=
  ⟨⟨rfl, rfl, rfl, rfl, rfl, rfl, rfl, rfl, rfl, rfl, rfl⟩, rfl, fun _ _ _ => rfl⟩

/-! ## Which cells `fillIPFIX` stores to -/

theorem fillIPFIX_success_in_bounds (r : RecordExtOSQUERY) (hostLittleEndian : Bool)
    (buffer : Nat → Nat) (size : Int) (hsize : (r.encodedLength : Int) ≤ size) (j : Nat)
    (hj : size ≤ (j : Int)) :
    (r.fillIPFIX hostLittleEndian buffer size).2 j = buffer j := by
  rw [fillIPFIX_of_fits r hostLittleEndian buffer size hsize]
  have h1 : ¬ (0 ≤ j ∧ j < 0 + r.writtenChunks.flatten.length) := by
    rw [written_join_length]
    omega
  simp only [overlay, if_neg h1]

/-- C14, at the failing input. For the default record and `size = 31`, `fillIPFIX` passes the
size checks of the first three strings (30 bytes), stores `os_major` and `os_minor` into cells
30 to 33 without a check, and returns -1 at the size check of `os_build`: cells 31, 32 and 33,
which held 7, hold 0 afterwards although they lie at or beyond `size`. -/
theorem fillIPFIX_numeric_store_past_size :
    (RecordExtOSQUERY.ctor.fillIPFIX true (fun _ => 7) 31).1 = -1 ∧
    (RecordExtOSQUERY.ctor.fillIPFIX true (fun _ => 7) 31).2 31 = 0 ∧
    (RecordExtOSQUERY.ctor.fillIPFIX true (fun _ => 7) 31).2 32 = 0 ∧
    (RecordExtOSQUERY.ctor.fillIPFIX true (fun _ => 7) 31).2 33 = 0 ∧
    (RecordExtOSQUERY.ctor.fillIPFIX true (fun _ => 7) 31).2 34 = 7 := by
  decide

/-! ## The encoding determines the record -/

theorem c_str_injective (s1 s2 : String) (h : c_str s1 = c_str s2) : s1 = s2 := by
  have hinj : Function.Injective Char.toNat := fun a b hab => Char.ext (UInt32.ext hab)
  exact String.ext (List.map_injective_iff.mpr hinj h)

theorem writtenString_append_inj (s1 s2 : String) (t1 t2 : List Nat) (h1 : s1.length ≤ 255)
    (h2 : s2.length ≤ 255) (h : writtenString s1 ++ t1 = writtenString s2 ++ t2) :
    s1 = s2 ∧ t1 = t2 := by
  simp only [writtenString, List.cons_append, List.cons.injEq] at h
  obtain ⟨hlen, hrest⟩ := h
  have hl : (c_str s1).length = (c_str s2).length := by
    rw [c_str_length, c_str_length]
    omega
  obtain ⟨hs, ht⟩ := List.append_inj hrest hl
  exact ⟨c_str_injective s1 s2 hs, ht⟩

theorem writtenU16_append_inj (v1 v2 : Nat) (t1 t2 : List Nat) (h1 : v1 < 65536)
    (h2 : v2 < 65536) (h : writtenU16 v1 ++ t1 = writtenU16 v2 ++ t2) :
    v1 = v2 ∧ t1 = t2 := by
  simp only [writtenU16, List.cons_append, List.nil_append, List.cons.injEq] at h
  obtain ⟨ha, hb, ht⟩ := h
  exact ⟨by omega, ht⟩

theorem writtenChunks_injective (r1 r2 : RecordExtOSQUERY) (hs1 : r1.stringsFit)
    (hs2 : r2.stringsFit) (hn1 : r1.numbersFit) (hn2 : r2.numbersFit)
    (h : r1.writtenChunks.flatten = r2.writtenChunks.flatten) : r1 = r2 := by
  obtain ⟨a1, a2, a3, a4, a5, a6, a7, a8, a9⟩ := hs1
  obtain ⟨b1, b2, b3, b4, b5, b6, b7, b8, b9⟩ := hs2
  simp only [RecordExtOSQUERY.writtenChunks, List.flatten_cons, List.flatten_nil] at h
  obtain ⟨e1, h⟩ := writtenString_append_inj _ _ _ _ a1 b1 h
  obtain ⟨e2, h⟩ := writtenString_append_inj _ _ _ _ a2 b2 h
  obtain ⟨e3, h⟩ := writtenString_append_inj _ _ _ _ a3 b3 h
  obtain ⟨e4, h⟩ := writtenU16_append_inj _ _ _ _ hn1.1 hn2.1 h
  obtain ⟨e5, h⟩ := writtenU16_append_inj _ _ _ _ hn1.2 hn2.2 h
  obtain ⟨e6, h⟩ := writtenString_append_inj _ _ _ _ a4 b4 h
  obtain ⟨e7, h⟩ := writtenString_append_inj _ _ _ _ a5 b5 h
  obtain ⟨e8, h⟩ := writtenString_append_inj _ _ _ _ a6 b6 h
  obtain ⟨e9, h⟩ := writtenString_append_inj _ _ _ _ a7 b7 h
  obtain ⟨e10, h⟩ := writtenString_append_inj _ _ _ _ a8 b8 h
  obtain ⟨e11, _⟩ := writtenString_append_inj _ _ _ _ a9 b9 h
  cases r1
  cases r2
  simp only at e1 e2 e3 e4 e5 e6 e7 e8 e9 e10 e11
  subst e1 e2 e3 e4 e5 e6 e7 e8 e9 e10 e11
  rfl

theorem fillIPFIX_success_eq (r : RecordExtOSQUERY) (hostLittleEndian : Bool)
    (buffer : Nat → Nat) (size : Int)
    (hok : (r.fillIPFIX hostLittleEndian buffer size).1 ≠ -1) :
    (r.fillIPFIX hostLittleEndian buffer size).1 = r.encodedLength ∧
    readBytes (r.fillIPFIX hostLittleEndian buffer size).2
      (r.fillIPFIX hostLittleEndian buffer size).1.toNat = r.writtenChunks.flatten := by
  have hfit : (r.encodedLength : Int) ≤ size := by
    by_contra hlt
    apply hok
    rw [fillIPFIX_fst, if_pos (by omega)]
  rw [fillIPFIX_of_fits r hostLittleEndian buffer size hfit]
  refine ⟨rfl, ?_⟩
  simp only [Int.toNat_ofNat]
  rw [← written_join_length, readBytes_overlay]

/-- C15. Two records of the C++ type (numeric members below `2 ^ 16`) whose strings are each at
most 255 long, on which `fillIPFIX` succeeds and leaves the same bytes in the leading part of the
buffer that its returned length delimits, are equal in all eleven members (equal byte lists have
equal lengths, so the two returned lengths agree as well). The two calls may use different
hosts, buffers and sizes. -/
theorem fillIPFIX_injective (r1 r2 : RecordExtOSQUERY) (host1 host2 : Bool)
    (buffer1 buffer2 : Nat → Nat) (size1 size2 : Int)
    (hs1 : r1.stringsFit) (hs2 : r2.stringsFit) (hn1 : r1.numbersFit) (hn2 : r2.numbersFit)
    (hok1 : (r1.fillIPFIX host1 buffer1 size1).1 ≠ -1)
    (hok2 : (r2.fillIPFIX host2 buffer2 size2).1 ≠ -1)
    (hbytes : readBytes (r1.fillIPFIX host1 buffer1 size1).2
        (r1.fillIPFIX host1 buffer1 size1).1.toNat
      = readBytes (r2.fillIPFIX host2 buffer2 size2).2
        (r2.fillIPFIX host2 buffer2 size2).1.toNat) :
    r1 = r2 := by
  have e1 := (fillIPFIX_success_eq r1 host1 buffer1 size1 hok1).2
  have e2 := (fillIPFIX_success_eq r2 host2 buffer2 size2 hok2).2
  exact writtenChunks_injective r1 r2 hs1 hs2 hn1 hn2 (by rw [← e1, ← e2, hbytes])

theorem fillIPFIX_injective_witness :
    ({ RecordExtOSQUERY.ctor with os_major := 22, os_minor := 4 } : RecordExtOSQUERY)
      = RecordExtOSQUERY.copy { RecordExtOSQUERY.ctor with os_major := 22, os_minor := 4 } :=
  fillIPFIX_injective { RecordExtOSQUERY.ctor with os_major := 22, os_minor := 4 }
    (RecordExtOSQUERY.copy { RecordExtOSQUERY.ctor with os_major := 22, os_minor := 4 })
    true false (fun _ => 0) (fun _ => 9) 94 200
    (by decide) (by decide) (by decide) (by decide) (by decide) (by decide) (by decide)

/-! ## The retry policy -/

theorem copy_closed (quote : Nat) (body post : List Nat) (hb : quote ∉ body) :
    ∀ (pos : Nat) (str reads : List Nat),
      (copyToClosingQuote quote (body ++ quote :: post) pos str reads).result
          = (pos : Int) + body.length + 1 ∧
      (copyToClosingQuote quote (body ++ quote :: post) pos str reads).str = str ++ body := by
  induction body with
  | nil =>
    intro pos str reads
    simp [copyToClosingQuote]
  | cons b bs ih =>
    intro pos str reads
    have hne : b ≠ quote := fun e => hb (by simp [e])
    have hbs : quote ∉ bs := fun e => hb (by simp [e])
    rw [List.cons_append, copyToClosingQuote, if_neg hne]
    obtain ⟨h1, h2⟩ := ih hbs (pos + 1) (str ++ [b]) (reads ++ [pos])
    rw [h1, h2]
    constructor
    · simp only [List.length_cons]
      push_cast
      omega
    · simp

theorem copy_open (quote : Nat) (body : List Nat) (hb : quote ∉ body) :
    ∀ (pos : Nat) (str reads : List Nat),
      (copyToClosingQuote quote body pos str reads).result = -1 := by
  induction body with
  | nil =>
    intro pos str reads
    rfl
  | cons b bs ih =>
    intro pos str reads
    have hne : b ≠ quote := fun e => hb (by simp [e])
    have hbs : quote ∉ bs := fun e => hb (by simp [e])
    simp only [copyToClosingQuote, if_neg hne]
    exact ih hbs _ _ _

theorem copy_result_range (quote : Nat) (rest : List Nat) :
    ∀ (pos : Nat) (str reads : List Nat),
      (copyToClosingQuote quote rest pos str reads).result = -1 ∨
      ((pos : Int) + 1 ≤ (copyToClosingQuote quote rest pos str reads).result ∧
        (copyToClosingQuote quote rest pos str reads).result ≤ (pos : Int) + rest.length) := by
  induction rest with
  | nil =>
    intro pos str reads
    exact Or.inl rfl
  | cons b bs ih =>
    intro pos str reads
    simp only [copyToClosingQuote]
    split_ifs with hq
    · right
      simp only [List.length_cons]
      push_cast
      omega
    · rcases ih (pos + 1) (str ++ [b]) (reads ++ [pos]) with h | h
      · exact Or.inl h
      · right
        simp only [List.length_cons]
        push_cast at h ⊢
        omega

theorem copy_reads (quote : Nat) (rest : List Nat) :
    ∀ (pos : Nat) (str reads : List Nat) (p : Nat),
      p ∈ (copyToClosingQuote quote rest pos str reads).reads →
      p ∈ reads ∨ (pos ≤ p ∧ p < pos + rest.length) := by
  induction rest with
  | nil =>
    intro pos str reads p hp
    exact Or.inl hp
  | cons b bs ih =>
    intro pos str reads p hp
    simp only [copyToClosingQuote] at hp
    split_ifs at hp with hq
    · simp only [List.mem_append, List.mem_singleton] at hp
      rcases hp with h | h
      · exact Or.inl h
      · right
        simp only [List.length_cons]
        omega
    · rcases ih (pos + 1) (str ++ [b]) (reads ++ [pos]) p hp with h | h
      · simp only [List.mem_append, List.mem_singleton] at h
        rcases h with h | h
        · exact Or.inl h
        · right
          simp only [List.length_cons]
          omega
      · right
        simp only [List.length_cons]
        omega

theorem scan_to_quote (quote sep : Nat) (pre tl : List Nat) (hq : quote ∉ pre)
    (hs : sep ∉ pre) :
    ∀ (pos : Nat) (reads : List Nat),
      ∃ reads1, scanToOpeningQuote quote sep (pre ++ quote :: tl) pos reads
        = copyToClosingQuote quote tl (pos + pre.length + 1) [] reads1 := by
  induction pre with
  | nil =>
    intro pos reads
    exact ⟨reads ++ [pos], by simp [scanToOpeningQuote]⟩
  | cons b bs ih =>
    intro pos reads
    have hbq : b ≠ quote := fun e => hq (by simp [e])
    have hbs : b ≠ sep := fun e => hs (by simp [e])
    have hq1 : quote ∉ bs := fun e => hq (by simp [e])
    have hs1 : sep ∉ bs := fun e => hs (by simp [e])
    obtain ⟨reads1, h1⟩ := ih hq1 hs1 (pos + 1) (reads ++ [pos])
    refine ⟨reads1, ?_⟩
    have e : pos + 1 + bs.length + 1 = pos + (bs.length + 1) + 1 := by omega
    rw [List.cons_append, scanToOpeningQuote, if_neg hbq, if_neg hbs, h1, List.length_cons, e]

theorem scan_to_sep (quote sep : Nat) (hqs : quote ≠ sep) (pre post : List Nat)
    (hq : quote ∉ pre) (hs : sep ∉ pre) :
    ∀ (pos : Nat) (reads : List Nat),
      (scanToOpeningQuote quote sep (pre ++ sep :: post) pos reads).result = 0 := by
  induction pre with
  | nil =>
    intro pos reads
    simp [scanToOpeningQuote, Ne.symm hqs]
  | cons b bs ih =>
    intro pos reads
    have hbq : b ≠ quote := fun e => hq (by simp [e])
    have hbs : b ≠ sep := fun e => hs (by simp [e])
    have hq1 : quote ∉ bs := fun e => hq (by simp [e])
    have hs1 : sep ∉ bs := fun e => hs (by simp [e])
    rw [List.cons_append, scanToOpeningQuote, if_neg hbq, if_neg hbs]
    exact ih hq1 hs1 _ _

theorem scan_to_end (quote sep : Nat) (rest : List Nat) (hq : quote ∉ rest)
    (hs : sep ∉ rest) :
    ∀ (pos : Nat) (reads : List Nat),
      (scanToOpeningQuote quote sep rest pos reads).result = -1 := by
  induction rest with
  | nil =>
    intro pos reads
    rfl
  | cons b bs ih =>
    intro pos reads
    have hbq : b ≠ quote := fun e => hq (by simp [e])
    have hbs : b ≠ sep := fun e => hs (by simp [e])
    have hq1 : quote ∉ bs := fun e => hq (by simp [e])
    have hs1 : sep ∉ bs := fun e => hs (by simp [e])
    simp only [scanToOpeningQuote, if_neg hbq, if_neg hbs]
    exact ih hq1 hs1 _ _

theorem scan_zero_inv (quote sep : Nat) (rest : List Nat) :
    ∀ (pos : Nat) (reads : List Nat),
      (scanToOpeningQuote quote sep rest pos reads).result = 0 →
      ∃ pre post, rest = pre ++ sep :: post ∧ quote ∉ pre ∧ sep ∉ pre := by
  induction rest with
  | nil =>
    intro pos reads h
    simp [scanToOpeningQuote] at h
  | cons b bs ih =>
    intro pos reads h
    simp only [scanToOpeningQuote] at h
    split_ifs at h with hbq hbs
    · rcases copy_result_range quote bs (pos + 1) [] (reads ++ [pos]) with h1 | h1
      · rw [h] at h1
        exact absurd h1 (by decide)
      · rw [h] at h1
        omega
    · exact ⟨[], bs, by simp [hbs], by simp, by simp⟩
    · obtain ⟨pre, post, e, h1, h2⟩ := ih (pos + 1) (reads ++ [pos]) h
      refine ⟨b :: pre, post, by simp [e], ?_, ?_⟩
      · simp only [List.mem_cons, not_or]
        exact ⟨fun e1 => hbq e1.symm, h1⟩
      · simp only [List.mem_cons, not_or]
        exact ⟨fun e1 => hbs e1.symm, h2⟩

theorem scan_result_range (quote sep : Nat) (rest : List Nat) :
    ∀ (pos : Nat) (reads : List Nat),
      (scanToOpeningQuote quote sep rest pos reads).result = -1 ∨
      (scanToOpeningQuote quote sep rest pos reads).result = 0 ∨
      ((pos : Int) + 2 ≤ (scanToOpeningQuote quote sep rest pos reads).result ∧
        (scanToOpeningQuote quote sep rest pos reads).result ≤ (pos : Int) + rest.length) := by
  induction rest with
  | nil =>
    intro pos reads
    exact Or.inl rfl
  | cons b bs ih =>
    intro pos reads
    simp only [scanToOpeningQuote]
    split_ifs with hbq hbs
    · rcases copy_result_range quote bs (pos + 1) [] (reads ++ [pos]) with h1 | h1
      · exact Or.inl h1
      · right
        right
        simp only [List.length_cons]
        push_cast at h1 ⊢
        omega
    · exact Or.inr (Or.inl rfl)
    · rcases ih (pos + 1) (reads ++ [pos]) with h1 | h1 | h1
      · exact Or.inl h1
      · exact Or.inr (Or.inl h1)
      · right
        right
        simp only [List.length_cons]
        push_cast at h1 ⊢
        omega

theorem scan_reads (quote sep : Nat) (rest : List Nat) :
    ∀ (pos : Nat) (reads : List Nat) (p : Nat),
      p ∈ (scanToOpeningQuote quote sep rest pos reads).reads →
      p ∈ reads ∨ (pos ≤ p ∧ p < pos + rest.length) := by
  induction rest with
  | nil =>
    intro pos reads p hp
    exact Or.inl hp
  | cons b bs ih =>
    intro pos reads p hp
    simp only [scanToOpeningQuote] at hp
    split_ifs at hp with hbq hbs
    · rcases copy_reads quote bs (pos + 1) [] (reads ++ [pos]) p hp with h | h
      · simp only [List.mem_append, List.mem_singleton] at h
        rcases h with h | h
        · exact Or.inl h
        · right
          simp only [List.length_cons]
          omega
      · right
        simp only [List.length_cons]
        omega
    · simp only [List.mem_append, List.mem_singleton] at hp
      rcases hp with h | h
      · exact Or.inl h
      · right
        simp only [List.length_cons]
        omega
    · rcases ih (pos + 1) (reads ++ [pos]) p hp with h | h
      · simp only [List.mem_append, List.mem_singleton] at h
        rcases h with h | h
        · exact Or.inl h
        · right
          simp only [List.length_cons]
          omega
      · right
        simp only [List.length_cons]
        omega

/-- C12. Over every observed buffer content and from every start position, `parseString` returns
-1 when the data ends before an opening quote or a record separator is met, and also when it
ends after the opening quote before a closing quote; it returns 0 exactly when a record
separator is met before any quote; when both quotes are found it returns the position behind
the closing quote and hands back the text between the quotes. No other result occurs, a
position result lies between `fromPos + 2` and the length of the data, and every position read
lies at or after `fromPos` and before the end of the observed data. -/
theorem parseString_markers (quote sep : Nat) (hqs : quote ≠ sep) (data : List Nat)
    (fromPos : Nat) :
    (quote ∉ data.drop fromPos → sep ∉ data.drop fromPos →
      (parseString quote sep data fromPos).result = -1) ∧
    (∀ pre body : List Nat, data.drop fromPos = pre ++ quote :: body → quote ∉ pre →
      sep ∉ pre → quote ∉ body → (parseString quote sep data fromPos).result = -1) ∧
    ((parseString quote sep data fromPos).result = 0 ↔
      ∃ pre post : List Nat, data.drop fromPos = pre ++ sep :: post ∧ quote ∉ pre ∧ sep ∉ pre) ∧
    (∀ pre body post : List Nat, data.drop fromPos = pre ++ quote :: (body ++ quote :: post) →
      quote ∉ pre → sep ∉ pre → quote ∉ body →
      (parseString quote sep data fromPos).result
          = (fromPos : Int) + pre.length + body.length + 2 ∧
      (parseString quote sep data fromPos).str = body) ∧
    ((parseString quote sep data fromPos).result = -1 ∨
      (parseString quote sep data fromPos).result = 0 ∨
      ((fromPos : Int) + 2 ≤ (parseString quote sep data fromPos).result ∧
        (parseString quote sep data fromPos).result ≤ (data.length : Int))) ∧
    (∀ p ∈ (parseString quote sep data fromPos).reads, fromPos ≤ p ∧ p < data.length) := by
  have hlen : (data.drop fromPos).length = data.length - fromPos := List.length_drop _ _
  refine ⟨?_, ?_, ?_, ?_, ?_, ?_⟩
  · intro hq hs
    exact scan_to_end quote sep _ hq hs fromPos []
  · intro pre body e hq hs hb
    obtain ⟨reads1, h1⟩ := scan_to_quote quote sep pre body hq hs fromPos []
    rw [parseString, e, h1]
    exact copy_open quote body hb _ _ _
  · constructor
    · exact scan_zero_inv quote sep _ fromPos []
    · rintro ⟨pre, post, e, hq, hs⟩
      rw [parseString, e]
      exact scan_to_sep quote sep hqs pre post hq hs fromPos []
  · intro pre body post e hq hs hb
    obtain ⟨reads1, h1⟩ := scan_to_quote quote sep pre (body ++ quote :: post) hq hs fromPos []
    obtain ⟨h2, h3⟩ := copy_closed quote body post hb (fromPos + pre.length + 1) [] reads1
    rw [parseString, e, h1, h2, h3]
    constructor
    · push_cast
      omega
    · simp
  · rcases scan_result_range quote sep (data.drop fromPos) fromPos [] with h | h | h
    · exact Or.inl h
    · exact Or.inr (Or.inl h)
    · right
      right
      rw [hlen] at h
      rw [parseString]
      omega
  · intro p hp
    rcases scan_reads quote sep (data.drop fromPos) fromPos [] p hp with h | h
    · simp at h
    · rw [hlen] at h
      omega

theorem parseString_markers_witness :
    (parseString 34 125 pidRow 0).result
        = ((0 : Nat) : Int) + ([123] : List Nat).length + ([112, 105, 100] : List Nat).length + 2 ∧
    (parseString 34 125 pidRow 0).str = [112, 105, 100] :=
  (parseString_markers 34 125 (by decide) pidRow 0).2.2.2.1 [123] [112, 105, 100]
    [58, 34, 52, 56, 50, 49, 34, 125] (by decide) (by decide) (by decide) (by decide)
